import Mathlib

/-!
Verification of the PDAL `BpfCompressor` block writer
(`src/io/bpf/BpfCompressor.hpp`) and of the `GpsTimeConvert` filter
(`src/filters/GpsTimeConvert.cpp`).

Only the header of `BpfCompressor` is part of the repository snapshot under
verification; the bodies of `startBlock`, `compress` and `finish` live in a
translation unit that is not present.  Those operations are therefore
modelled from the specification (sections 4.1 - 4.4, 6 and 7 of the design
document), while everything the header itself fixes (the constructor
initializer list, `CHUNKSIZE`, the member layout) is translated directly
from the source.
-/

namespace Pdal

/-- Bytes are modelled as natural numbers; the little-endian header encoding
only ever produces values below 256. -/
abbrev Byte := Nat

/-! ### The little-endian seekable output stream (external collaborator)

Modelled from the spec: `OLeStream` supports sequential writes, `tell`
(the cursor), and seeking for the backpatch in `finish`.  A stream is a byte
buffer plus a write cursor; `write` overwrites at the cursor and advances
it, which is a plain append whenever the cursor sits at the end of the
buffer (the well-formed state `wf`). -/

structure OLeStream where
  buf : List Byte
  pos : Nat
deriving DecidableEq

def OLeStream.write (s : OLeStream) (bs : List Byte) : OLeStream :=
  { buf := s.buf.take s.pos ++ bs ++ s.buf.drop (s.pos + bs.length),
    pos := s.pos + bs.length }

def OLeStream.seek (s : OLeStream) (p : Nat) : OLeStream :=
  { s with pos := p }

/-- The cursor sits at the end of the buffer: every `write` is an append. -/
def OLeStream.wf (s : OLeStream) : Prop := s.pos = s.buf.length

/-- Little-endian encoding of `n` on `w` bytes (the fixed-width header
fields of the block header). -/
def toLE : Nat → Nat → List Byte
  | 0, _ => []
  | w + 1, n => n % 256 :: toLE w (n / 256)

/-- Value of a little-endian byte string. -/
def fromLE : List Byte → Nat
  | [] => 0
  | b :: bs => b + 256 * fromLE bs

/-- Width in bytes of one header field (`size_t` raw and compressed sizes,
spec section 6 allows 32- or 64-bit fields; the members are `size_t`). -/
def FIELDSIZE : Nat := 8

/-- Total width of the block header: `rawSize` then `compressedSize`. -/
def HEADERSIZE : Nat := 16

/-- The block header: `rawSize` followed by `compressedSize`, each a
fixed-width little-endian field (spec section 6). -/
def headerBytes (raw comp : Nat) : List Byte :=
  toLE FIELDSIZE raw ++ toLE FIELDSIZE comp

/-! ### The compression engine -/

/-- `static const int CHUNKSIZE = 1000000;` — the size of the scratch
buffer `m_tmpbuf` (source, `BpfCompressor.hpp` line 59). -/
def CHUNKSIZE : Nat := 1000000

/-- Modelled from the spec: the streaming compressor behind
`CompressionEngine` (zlib `z_stream`, an external pluggable capability per
spec sections 1 and 4.2).  The spec fixes only its interface — input is
consumed statefully, output appears in chunks of at most one `ChunkBuffer`
(`CHUNKSIZE` bytes), non-final feeds may retain internal buffering, the
final flush drains everything, and the matching decompressor inverts the
emitted stream.  We model it as a buffering chunked identity codec: the
internal state is the input consumed but not yet emitted, non-final feeds
emit only whole `CHUNKSIZE` chunks, the final feed emits every byte, and
decompression is concatenation of the emitted chunks. -/
structure ZStream where
  pending : List Byte
deriving DecidableEq

/-- Chunk-splitting worker: `fuel` bounds the number of rounds.  Each round
removes `CHUNKSIZE ≥ 1` bytes, so `fuel = xs.length` always suffices; the
zero-fuel case with a non-empty list is unreachable from `chunksOf`. -/
def chunksOfAux : Nat → List Byte → List (List Byte)
  | _, [] => []
  | 0, _ :: _ => []
  | fuel + 1, xs => xs.take CHUNKSIZE :: chunksOfAux fuel (xs.drop CHUNKSIZE)

/-- Split a byte string into chunks of `CHUNKSIZE` bytes, the last chunk
possibly shorter.  Each chunk is one filling of `m_tmpbuf` handed to the
output stream. -/
def chunksOf (xs : List Byte) : List (List Byte) :=
  chunksOfAux xs.length xs

/-- Modelled from the spec: `CompressionEngine.feed(inputBytes, finalInput)`
(spec section 4.2).  Returns the chunks emitted, in order, and the new
engine state.  A non-final feed emits only whole chunks and retains the
remainder; a final feed drains everything, and a non-empty trailing short
chunk is still emitted. -/
def ZStream.feed (z : ZStream) (input : List Byte) (finalInput : Bool) :
    List (List Byte) × ZStream :=
  let t := z.pending ++ input
  if finalInput then
    (chunksOf t, ⟨[]⟩)
  else
    let k := t.length / CHUNKSIZE
    (chunksOf (t.take (CHUNKSIZE * k)), ⟨t.drop (CHUNKSIZE * k)⟩)

/-! ### The BpfCompressor -/

/-- The `Idle → Open → Closed` lifecycle of a block (spec section 4.4). -/
inductive FramerState
  | Idle
  | Open
  | Closed
deriving DecidableEq

/-- The error taxonomy of spec sections 4.1, 4.4 and 7. -/
inductive BpfError
  | CapacityExceeded
  | CompressionFault
  | InvalidTransition
  | NotOpen
  | AlreadyOpen
deriving DecidableEq

/-- The members of `class BpfCompressor` (source, `BpfCompressor.hpp` lines
58-68) together with the block-lifecycle state of spec section 4.4.
`m_inbufSize` is the size of the staging vector `m_inbuf(maxSize)`;
`m_staged` is its currently staged content (reached through `m_charbuf` in
the source); `m_level` is the compression level configured at construction
(spec section 4.2).  `m_tmpbuf` itself carries no state between calls (spec
section 3, ChunkBuffer) and is represented by the chunking in
`ZStream.feed`. -/
structure BpfCompressor where
  m_out : OLeStream
  m_inbufSize : Nat
  m_level : Int
  m_staged : List Byte
  m_strm : ZStream
  m_blockStart : Nat
  m_rawSize : Nat
  m_compressedSize : Nat
  m_state : FramerState
deriving DecidableEq

/-- zlib default-compression constant (external `zlib.h`). -/
def Z_DEFAULT_COMPRESSION : Int := -1

/-- The constructor (source, `BpfCompressor.hpp` lines 49-53):
`BpfCompressor(OLeStream& out, size_t maxSize, int compressionLevel =
Z_DEFAULT_COMPRESSION)` with initializer list `m_out(out), m_inbuf(maxSize),
m_blockStart(out), m_rawSize(0), m_compressedSize(0)`.  The
`OStreamMarker m_blockStart(out)` records the current stream position. -/
def BpfCompressor.mkNew (out : OLeStream) (maxSize : Nat)
    (compressionLevel : Int := Z_DEFAULT_COMPRESSION) : BpfCompressor :=
  { m_out := out
    m_inbufSize := maxSize
    m_level := compressionLevel
    m_staged := []
    m_strm := ⟨[]⟩
    m_blockStart := out.pos
    m_rawSize := 0
    m_compressedSize := 0
    m_state := .Idle }

/-- Modelled from the spec: `stage(bytes)` of BoundedInputStaging (spec
section 4.1) — the caller appends raw bytes for the current block; fails
with `CapacityExceeded`, leaving the staged content untouched, if appending
would exceed the maximum block payload size fixed at construction. -/
def BpfCompressor.stage (c : BpfCompressor) (bs : List Byte) :
    BpfCompressor × Option BpfError :=
  if c.m_inbufSize < c.m_staged.length + bs.length then
    (c, some .CapacityExceeded)
  else
    ({ c with m_staged := c.m_staged ++ bs }, none)

/-- Write a list of compressed chunks to the stream in emission order. -/
def writeChunks (s : OLeStream) (cs : List (List Byte)) : OLeStream :=
  cs.foldl OLeStream.write s

/-- Modelled from the spec: `BpfCompressor::startBlock()` (spec section
4.4) — requires `Idle` or `Closed` (fails with `AlreadyOpen` on an open
block); records the current write position as the block start, writes the
fixed-width placeholder header there, resets the compression engine and
zeroes the running totals. -/
def BpfCompressor.startBlock (c : BpfCompressor) :
    BpfCompressor × Option BpfError :=
  if c.m_state = .Open then
    (c, some .AlreadyOpen)
  else
    ({ c with
        m_blockStart := c.m_out.pos
        m_out := c.m_out.write (headerBytes 0 0)
        m_strm := ⟨[]⟩
        m_staged := []
        m_rawSize := 0
        m_compressedSize := 0
        m_state := .Open }, none)

/-- Modelled from the spec: `BpfCompressor::compress()` (spec sections 4.3
and 4.4) — requires an open block (`InvalidTransition` otherwise); drains
the staging buffer, feeds it to the engine with `finalInput = false`,
writes every produced chunk in emission order, and adds the bytes drained
to `m_rawSize` and the bytes written to `m_compressedSize`. -/
def BpfCompressor.compress (c : BpfCompressor) :
    BpfCompressor × Option BpfError :=
  if c.m_state = .Open then
    let drained := c.m_staged
    let fc := c.m_strm.feed drained false
    ({ c with
        m_staged := []
        m_strm := fc.2
        m_out := writeChunks c.m_out fc.1
        m_rawSize := c.m_rawSize + drained.length
        m_compressedSize := c.m_compressedSize + (fc.1.map List.length).sum },
      none)
  else
    (c, some .InvalidTransition)

/-- Modelled from the spec: `BpfCompressor::finish()` (spec section 4.4) —
fails with `NotOpen` before any `startBlock()` and with `InvalidTransition`
on a second call; otherwise flushes the engine (`feed` with empty input and
`finalInput = true`), writes the final chunks, then seek-writes the final
header at the recorded block start and restores the write cursor to its
position immediately before the seek-write. -/
def BpfCompressor.finish (c : BpfCompressor) :
    BpfCompressor × Option BpfError :=
  match c.m_state with
  | .Idle => (c, some .NotOpen)
  | .Closed => (c, some .InvalidTransition)
  | .Open =>
    let fc := c.m_strm.feed [] true
    let raw := c.m_rawSize
    let comp := c.m_compressedSize + (fc.1.map List.length).sum
    let out1 := writeChunks c.m_out fc.1
    let saved := out1.pos
    let out2 := ((out1.seek c.m_blockStart).write (headerBytes raw comp)).seek
      saved
    ({ c with
        m_out := out2
        m_strm := ⟨[]⟩
        m_staged := []
        m_rawSize := raw
        m_compressedSize := comp
        m_state := .Closed }, none)

/-- Run a sequence of `stage piece; compress()` rounds on a compressor,
stopping at the first error. -/
def runPieces (c : BpfCompressor) : List (List Byte) →
    BpfCompressor × Option BpfError
  | [] => (c, none)
  | p :: ps =>
    let r1 := c.stage p
    match r1.2 with
    | some e => (r1.1, some e)
    | none =>
      let r2 := r1.1.compress
      match r2.2 with
      | some e => (r2.1, some e)
      | none => runPieces r2.1 ps

/-- One whole block: construct, `startBlock()`, a round of
`stage`/`compress` per piece, `finish()`. -/
def runBlock (s : OLeStream) (maxSize : Nat) (lvl : Int)
    (ps : List (List Byte)) : BpfCompressor × Option BpfError :=
  let r1 := (BpfCompressor.mkNew s maxSize lvl).startBlock
  match r1.2 with
  | some e => (r1.1, some e)
  | none =>
    let r2 := runPieces r1.1 ps
    match r2.2 with
    | some e => (r2.1, some e)
    | none => r2.1.finish

/-- The canonical stream buffer of an open block started on a stream whose
buffer was `s0`, after `fed` bytes have gone through `stage`/`compress`
rounds: the original bytes, the placeholder header, and the whole chunks
emitted so far. -/
def canonOpenBuf (s0 fed : List Byte) : List Byte :=
  s0 ++ headerBytes 0 0 ++ fed.take (CHUNKSIZE * (fed.length / CHUNKSIZE))

/-- The canonical compressor state of an open block after `fed` bytes have
gone through `stage`/`compress` rounds (staging drained each round): whole
chunks are on the stream, the remainder is buffered in the engine, and the
running totals count the bytes drained and the bytes written. -/
def canonOpen (s0 : List Byte) (sz : Nat) (lvl : Int) (fed : List Byte) :
    BpfCompressor :=
  { m_out := ⟨canonOpenBuf s0 fed, (canonOpenBuf s0 fed).length⟩
    m_inbufSize := sz
    m_level := lvl
    m_staged := []
    m_strm := ⟨fed.drop (CHUNKSIZE * (fed.length / CHUNKSIZE))⟩
    m_blockStart := s0.length
    m_rawSize := fed.length
    m_compressedSize := CHUNKSIZE * (fed.length / CHUNKSIZE)
    m_state := .Open }

/-- The canonical stream buffer of a finished block: original bytes, final
header carrying both totals, and the full emitted payload. -/
def canonClosedBuf (s0 fed : List Byte) : List Byte :=
  s0 ++ headerBytes fed.length fed.length ++ fed

/-- The canonical compressor state after `finish()` of a block that
consumed `fed` bytes. -/
def canonClosed (s0 : List Byte) (sz : Nat) (lvl : Int) (fed : List Byte) :
    BpfCompressor :=
  { m_out := ⟨canonClosedBuf s0 fed, (canonClosedBuf s0 fed).length⟩
    m_inbufSize := sz
    m_level := lvl
    m_staged := []
    m_strm := ⟨[]⟩
    m_blockStart := s0.length
    m_rawSize := fed.length
    m_compressedSize := fed.length
    m_state := .Closed }

/-- The decompressed content of the compressed region a finished block has
written: the bytes between the end of the header at `m_blockStart` and the
end of the `m_compressedSize`-byte payload, decompressed.  The matching
decompressor of the model codec (see `ZStream`) is concatenation, so
decompression is the identity on the region. -/
def regionOf (c : BpfCompressor) : List Byte :=
  (c.m_out.buf.drop (c.m_blockStart + HEADERSIZE)).take c.m_compressedSize

/-- Round-trip statement of one block: the sequence `startBlock(); stage
data; compress(); finish()` succeeds, the written region decompresses to
`data`, and the `rawSize` field of the final header decodes to the length
of `data`. -/
def RoundTripProp (s : OLeStream) (maxSize : Nat) (lvl : Int)
    (data : List Byte) : Prop :=
  let r1 := (BpfCompressor.mkNew s maxSize lvl).startBlock
  let r2 := r1.1.stage data
  let r3 := r2.1.compress
  let r4 := r3.1.finish
  r1.2 = none ∧ r2.2 = none ∧ r3.2 = none ∧ r4.2 = none ∧
  regionOf r4.1 = data ∧
  fromLE ((r4.1.m_out.buf.drop r4.1.m_blockStart).take FIELDSIZE)
    = data.length

/-- Chunking-invariance statement: two partitions of the same payload into
`stage`/`compress` rounds succeed and produce the same final compressor
state, the same decompressed region, and the same final totals. -/
def ChunkingProp (s : OLeStream) (maxSize : Nat) (lvl : Int)
    (ps qs : List (List Byte)) : Prop :=
  runBlock s maxSize lvl ps = runBlock s maxSize lvl qs ∧
  (runBlock s maxSize lvl ps).2 = none ∧
  (runBlock s maxSize lvl qs).2 = none ∧
  regionOf (runBlock s maxSize lvl ps).1
    = regionOf (runBlock s maxSize lvl qs).1 ∧
  (runBlock s maxSize lvl ps).1.m_rawSize
    = (runBlock s maxSize lvl qs).1.m_rawSize ∧
  (runBlock s maxSize lvl ps).1.m_compressedSize
    = (runBlock s maxSize lvl qs).1.m_compressedSize

/-- Frame statement of `finish()` on an open block: it succeeds, the final
header (rawSize then compressedSize, fixed-width little-endian) sits at
`m_blockStart`, the write cursor on return equals its position immediately
before the seek-write (the append position after the final flushed
chunks), and the placeholder header has the byte width of the final
header. -/
def FinishFrameProp (c : BpfCompressor) : Prop :=
  let r := c.finish
  r.2 = none ∧
  (r.1.m_out.buf.drop c.m_blockStart).take HEADERSIZE
    = headerBytes r.1.m_rawSize r.1.m_compressedSize ∧
  r.1.m_out.pos
    = c.m_out.pos + ((c.m_strm.feed [] true).1.map List.length).sum ∧
  (headerBytes 0 0).length
    = (headerBytes r.1.m_rawSize r.1.m_compressedSize).length

/-- Empty-block statement: `startBlock(); finish()` with no `compress()`
yields `rawSize = 0` and a compressed region that decompresses to the
empty sequence. -/
def EmptyBlockProp (s : OLeStream) (maxSize : Nat) (lvl : Int) : Prop :=
  let r1 := (BpfCompressor.mkNew s maxSize lvl).startBlock
  let r2 := r1.1.finish
  r1.2 = none ∧ r2.2 = none ∧
  r2.1.m_rawSize = 0 ∧
  regionOf r2.1 = [] ∧
  fromLE ((r2.1.m_out.buf.drop r2.1.m_blockStart).take FIELDSIZE) = 0

end Pdal

namespace Pdal

namespace GpsTimeConvert

/-!
### The GpsTimeConvert filter (`src/filters/GpsTimeConvert.cpp`)

Per-point timestamps (`double` in the source) are modelled as rationals;
the conversions only add and subtract integer second counts, so the
arithmetic structure is preserved exactly.  The libc calendar functions
(`std::mktime`, `std::tm`) are external; they are modelled as pure
Gregorian day arithmetic with dates represented by their day count relative
to GPS zero time (1980-01-06, a Sunday), which is what the two usages
(`gpsTime2Date` followed by `weekStartGpsSeconds`) observe of them. -/

/-- The validated conversion type: option handling in the source maps the
`conversion` argument onto exactly these six values or throws. -/
inductive ConvType
  | ws2gst
  | ws2gt
  | gst2ws
  | gt2ws
  | gst2gt
  | gt2gst
deriving DecidableEq

/-- The validated options of the filter after argument processing:
`m_validType`, `m_validDate` (the parsed, `mktime`-normalized start date,
as a day count relative to GPS zero), `m_validWrap`, `m_validWrapped`. -/
structure Options where
  validType : ConvType
  validDate : Int
  validWrap : Bool
  validWrapped : Bool
deriving DecidableEq

/-- One second count: `60*60*24*7`, a week (the literal used in the
source). -/
def WEEK : ℚ := 60 * 60 * 24 * 7

/-- `std::adjacent_difference`: `deltas[0] = times[0]` and
`deltas[i] = times[i] - times[i-1]` for `i > 0`. -/
def adjacentDifference (ts : List ℚ) : List ℚ :=
  match ts with
  | [] => []
  | t :: rest => t :: List.zipWith (fun a b => a - b) rest ts

/-- The inner `for (PointId i=idx; i<m_numPoints; i++) times[i] += a;`
loop: add `a` to every element from index `idx` on. -/
def addFromIdx (idx : Nat) (a : ℚ) (ts : List ℚ) : List ℚ :=
  ts.take idx ++ (ts.drop idx).map (fun t => t + a)

/-- Iteration bound for the `unwrapWeekSeconds` loop: each pass adds one
week to the first negative adjacent difference (leaving every other
difference unchanged), so the total number of week-steps still needed,
summed over all differences, drops by exactly one per pass. -/
def unwrapFuel (ts : List ℚ) : Nat :=
  ((adjacentDifference ts).map (fun d => (⌈-d / WEEK⌉).toNat)).sum

def unwrapGo : Nat → List ℚ → List ℚ
  | 0, ts => ts
  | fuel + 1, ts =>
    let deltas := adjacentDifference ts
    let idx := deltas.findIdx (fun d => decide (d < 0))
    if idx < ts.length then unwrapGo fuel (addFromIdx idx WEEK ts) else ts

/-- `GpsTimeConvert::unwrapWeekSeconds`: while some adjacent difference is
negative, add `60*60*24*7` to all times from the first such index on.  The
source `while (it != deltas.end())` loop runs at most `unwrapFuel ts`
passes (see `unwrapFuel`), and both exit through the same
no-negative-difference test. -/
def unwrapWeekSeconds (ts : List ℚ) : List ℚ :=
  unwrapGo (unwrapFuel ts) ts

/-- Iteration bound for the `wrapWeekSeconds` loop: each pass subtracts one
week from every element from the first element `≥ WEEK` on, so the sum over
all elements of the number of week-subtractions each still needs drops by
at least one per pass. -/
def wrapFuel (ts : List ℚ) : Nat :=
  (ts.map (fun t => (⌊t / WEEK⌋).toNat)).sum

def wrapGo : Nat → List ℚ → List ℚ
  | 0, ts => ts
  | fuel + 1, ts =>
    let idx := ts.findIdx (fun t => decide (WEEK ≤ t))
    if idx < ts.length then wrapGo fuel (addFromIdx idx (-WEEK) ts) else ts

/-- `GpsTimeConvert::wrapWeekSeconds`: while some time is `>= 60*60*24*7`,
subtract `60*60*24*7` from all times from the first such index on.  The
source `while (it != times.end())` loop runs at most `wrapFuel ts` passes
(see `wrapFuel`), and both exit through the same test. -/
def wrapWeekSeconds (ts : List ℚ) : List ℚ :=
  wrapGo (wrapFuel ts) ts

/-- C truncation of a `double` to an integer (used when the source adds a
`double` second count to the `int` field `tm_sec`): rounding toward zero. -/
def cTrunc (q : ℚ) : Int := Int.tdiv q.num q.den

/-- `GpsTimeConvert::gpsTime2Date`: start from GPS zero time (1980-01-06),
add the (truncated) second count, let `mktime` normalize, then clear the
fractional-day fields.  In day-count representation this is the floor
division of the seconds by 86400. -/
def gpsTime2Date (seconds : ℚ) : Int :=
  Int.fdiv (cTrunc seconds) 86400

/-- `GpsTimeConvert::weekStartGpsSeconds`: back the date up to the first
day of its week (`date.tm_mday -= date.tm_wday`) and return the seconds
from GPS zero to that day.  With dates as day counts relative to GPS zero
(a Sunday), the weekday is the day count modulo 7. -/
def weekStartGpsSeconds (date : Int) : Int :=
  86400 * (date - date % 7)

/-- `GpsTimeConvert::weekSeconds2GpsTime`: optionally unwrap the input week
seconds, then add the seconds from GPS zero to the start of the week of
the configured start date, less `1000000000` when converting to GPS
standard time. -/
def weekSeconds2GpsTime (o : Options) (ts : List ℚ) : List ℚ :=
  let ts1 := if o.validWrapped then unwrapWeekSeconds ts else ts
  let numSeconds : Int :=
    if o.validType = .ws2gst then weekStartGpsSeconds o.validDate - 1000000000
    else weekStartGpsSeconds o.validDate
  ts1.map (fun t => t + (numSeconds : ℚ))

/-- `GpsTimeConvert::gpsTime2WeekSeconds`: shift GPS standard time to GPS
time if needed, take the date of the first time (`times[0]`, modelled
totally with default `0` on an empty view), strip the seconds to the start
of that week, and optionally wrap. -/
def gpsTime2WeekSeconds (o : Options) (ts : List ℚ) : List ℚ :=
  let ts1 :=
    if o.validType = .gst2ws then ts.map (fun t => t + 1000000000) else ts
  let firstDate := gpsTime2Date (ts1.getD 0 0)
  let numSeconds := weekStartGpsSeconds firstDate
  let ts2 := ts1.map (fun t => t - (numSeconds : ℚ))
  if o.validWrap then wrapWeekSeconds ts2 else ts2

/-- `GpsTimeConvert::gpsTime2GpsTime`: add `1000000000` for `gst2gt`,
subtract it for `gt2gst`. -/
def gpsTime2GpsTime (o : Options) (ts : List ℚ) : List ℚ :=
  let ts1 :=
    if o.validType = .gst2gt then ts.map (fun t => t + 1000000000) else ts
  if o.validType = .gt2gst then ts1.map (fun t => t - 1000000000) else ts1

/-- The dispatch on `m_validType` in `GpsTimeConvert::run` (source lines
311-319). -/
def convertTimes (o : Options) (ts : List ℚ) : List ℚ :=
  if o.validType = .ws2gst ∨ o.validType = .ws2gt then
    weekSeconds2GpsTime o ts
  else if o.validType = .gst2ws ∨ o.validType = .gt2ws then
    gpsTime2WeekSeconds o ts
  else
    gpsTime2GpsTime o ts

/-- Point-cloud dimensions: `GpsTime` and every other per-point dimension,
abstracted by an index. -/
inductive Dim
  | GpsTime
  | Other (n : Nat)
deriving DecidableEq

/-- A point view: a point count and, per dimension and point id, a value.
`getFieldAs<double>` and `setField` of the source read and write these
cells. -/
structure PointView where
  size : Nat
  getField : Dim → Nat → ℚ

/-- `inView->setField(dim, i, x)`. -/
def PointView.setField (v : PointView) (d : Dim) (i : Nat) (x : ℚ) :
    PointView :=
  { v with
    getField := fun d' i' =>
      if d' = d ∧ i' = i then x else v.getField d' i' }

/-- The first loop of `run`: read the `GpsTime` value of every point into a
vector. -/
def readTimes (v : PointView) : List ℚ :=
  (List.range v.size).map (fun i => v.getField .GpsTime i)

/-- The last loop of `run`: write `times[i]` back into the `GpsTime`
dimension of point `i`, for every point of the view. -/
def writeTimes (v : PointView) (ts : List ℚ) : PointView :=
  (List.range v.size).foldl
    (fun w i => w.setField .GpsTime i (ts.getD i 0)) v

/-- `GpsTimeConvert::run` (source lines 302-329): read the `GpsTime`
column, convert it according to the validated options, write it back into
the same view, and return a set holding exactly that view. -/
def run (o : Options) (v : PointView) : List PointView :=
  let times := readTimes v
  let times2 := convertTimes o times
  let v2 := writeTimes v times2
  [v2]

end GpsTimeConvert

end Pdal

namespace Pdal

/-! ### Header encoding lemmas -/

theorem toLE_length : ∀ (w n : Nat), (toLE w n).length = w
  | 0, _ => rfl
  | w + 1, n => by simp [toLE, toLE_length w]

theorem fromLE_toLE : ∀ (w n : Nat), n < 256 ^ w → fromLE (toLE w n) = n
  | 0, n, h => by
    simp only [Nat.pow_zero, Nat.lt_one_iff] at h
    simp [toLE, fromLE, h]
  | w + 1, n, h => by
    have h2 : n / 256 < 256 ^ w := by
      apply Nat.div_lt_of_lt_mul
      simpa [Nat.pow_succ, Nat.mul_comm] using h
    simp only [toLE, fromLE, fromLE_toLE w _ h2]
    exact Nat.mod_add_div n 256

theorem headerBytes_length (r c : Nat) : (headerBytes r c).length = HEADERSIZE := by
  simp [headerBytes, toLE_length, FIELDSIZE, HEADERSIZE]

/-! ### Chunking lemmas -/

theorem chunksOfAux_flatten : ∀ (fuel : Nat) (xs : List Byte),
    xs.length ≤ fuel → (chunksOfAux fuel xs).flatten = xs
  | fuel, [], _ => by cases fuel <;> simp [chunksOfAux]
  | 0, x :: xs, h => by simp at h
  | fuel + 1, x :: xs, h => by
    have hC : 1 ≤ CHUNKSIZE := by norm_num [CHUNKSIZE]
    have hrec : ((x :: xs).drop CHUNKSIZE).length ≤ fuel := by
      simp only [List.length_drop, List.length_cons] at h ⊢
      omega
    rw [chunksOfAux, List.flatten_cons,
      chunksOfAux_flatten fuel ((x :: xs).drop CHUNKSIZE) hrec,
      List.take_append_drop]
    exact List.cons_ne_nil x xs

theorem chunksOf_flatten (xs : List Byte) : (chunksOf xs).flatten = xs :=
  chunksOfAux_flatten xs.length xs (Nat.le_refl _)

theorem chunksOfAux_length_le : ∀ (fuel : Nat) (xs : List Byte),
    ∀ c ∈ chunksOfAux fuel xs, c.length ≤ CHUNKSIZE
  | fuel, [], c, hc => by cases fuel <;> simp [chunksOfAux] at hc
  | 0, _ :: _, c, hc => by simp [chunksOfAux] at hc
  | fuel + 1, x :: xs, c, hc => by
    rw [chunksOfAux] at hc
    case x_2 => exact List.cons_ne_nil x xs
    rcases List.mem_cons.mp hc with rfl | hc2
    · simp only [List.length_take]
      exact Nat.min_le_left _ _
    · exact chunksOfAux_length_le fuel _ c hc2

theorem chunksOf_length_le (xs : List Byte) :
    ∀ c ∈ chunksOf xs, c.length ≤ CHUNKSIZE :=
  chunksOfAux_length_le xs.length xs

theorem sum_map_length_chunksOf (xs : List Byte) :
    ((chunksOf xs).map List.length).sum = xs.length := by
  rw [← List.length_flatten, chunksOf_flatten]

/-! ### Stream lemmas -/

theorem OLeStream.write_eq (s : OLeStream) (bs : List Byte) (h : s.wf) :
    s.write bs = ⟨s.buf ++ bs, (s.buf ++ bs).length⟩ := by
  unfold OLeStream.wf at h
  simp [OLeStream.write, h, List.drop_eq_nil_of_le, List.append_assoc]

theorem writeChunks_eq (cs : List (List Byte)) : ∀ (s : OLeStream), s.wf →
    writeChunks s cs = ⟨s.buf ++ cs.flatten, (s.buf ++ cs.flatten).length⟩ := by
  induction cs with
  | nil =>
    intro s h
    unfold OLeStream.wf at h
    cases s with
    | mk buf pos => simp_all [writeChunks]
  | cons c cs ih =>
    intro s h
    have hw := OLeStream.write_eq s c h
    have hwf2 : (s.write c).wf := by rw [hw]; rfl
    calc writeChunks s (c :: cs) = writeChunks (s.write c) cs := rfl
      _ = ⟨(s.write c).buf ++ cs.flatten,
            ((s.write c).buf ++ cs.flatten).length⟩ := ih _ hwf2
      _ = ⟨s.buf ++ (c :: cs).flatten, (s.buf ++ (c :: cs).flatten).length⟩ := by
            rw [hw]; simp [List.append_assoc]

/-! ### Canonical-state lemmas: the block run in closed form -/

theorem startBlock_canon (s : OLeStream) (sz : Nat) (lvl : Int) (h : s.wf) :
    (BpfCompressor.mkNew s sz lvl).startBlock = (canonOpen s.buf sz lvl [], none) := by
  have hw := OLeStream.write_eq s (headerBytes 0 0) h
  unfold OLeStream.wf at h
  simp only [BpfCompressor.mkNew, BpfCompressor.startBlock]
  rw [if_neg (by simp)]
  rw [hw]
  simp [canonOpen, canonOpenBuf, h]

theorem stage_canon (s0 : List Byte) (sz : Nat) (lvl : Int) (fed p : List Byte)
    (hp : p.length ≤ sz) :
    (canonOpen s0 sz lvl fed).stage p
      = ({ canonOpen s0 sz lvl fed with m_staged := p }, none) := by
  unfold BpfCompressor.stage
  rw [if_neg (by simp [canonOpen]; omega)]
  simp [canonOpen]

theorem compress_canon (s0 : List Byte) (sz : Nat) (lvl : Int) (fed p : List Byte) :
    ({ canonOpen s0 sz lvl fed with m_staged := p } : BpfCompressor).compress
      = (canonOpen s0 sz lvl (fed ++ p), none) := by
  have hC : 0 < CHUNKSIZE := by norm_num [CHUNKSIZE]
  have hdm := Nat.div_add_mod fed.length CHUNKSIZE
  have hk1 : CHUNKSIZE * (fed.length / CHUNKSIZE) ≤ fed.length := by omega
  -- the engine input of this round, as a suffix of the total input
  have hE1 : fed.drop (CHUNKSIZE * (fed.length / CHUNKSIZE)) ++ p
      = (fed ++ p).drop (CHUNKSIZE * (fed.length / CHUNKSIZE)) :=
    (List.drop_append_of_le_length hk1).symm
  have hlt : ((fed ++ p).drop (CHUNKSIZE * (fed.length / CHUNKSIZE))).length
      = fed.length % CHUNKSIZE + p.length := by
    simp only [List.length_append, List.length_drop]
    omega
  -- the whole-chunk counts of the round and of the total compose
  have hkk : fed.length / CHUNKSIZE
        + (fed.length % CHUNKSIZE + p.length) / CHUNKSIZE
      = (fed ++ p).length / CHUNKSIZE := by
    have h1 : (fed ++ p).length
        = CHUNKSIZE * (fed.length / CHUNKSIZE)
          + (fed.length % CHUNKSIZE + p.length) := by
      simp only [List.length_append]; omega
    rw [h1, Nat.mul_add_div hC]
  have hk2le : CHUNKSIZE * ((fed.length % CHUNKSIZE + p.length) / CHUNKSIZE)
      ≤ fed.length % CHUNKSIZE + p.length := by
    rw [Nat.mul_comm]
    exact Nat.div_mul_le_self _ _
  simp only [BpfCompressor.compress, canonOpen, ZStream.feed]
  simp only [if_true, Bool.false_eq_true, if_false]
  rw [hE1]
  rw [hlt]
  rw [writeChunks_eq _ ⟨canonOpenBuf s0 fed, (canonOpenBuf s0 fed).length⟩ rfl]
  simp only [chunksOf_flatten, sum_map_length_chunksOf]
  simp only [Prod.mk.injEq, BpfCompressor.mk.injEq, OLeStream.mk.injEq,
    ZStream.mk.injEq, and_true, true_and]
  refine ⟨⟨?_, ?_⟩, ?_, ?_, ?_⟩
  · -- stream buffer
    show canonOpenBuf s0 fed
        ++ ((fed ++ p).drop (CHUNKSIZE * (fed.length / CHUNKSIZE))).take
          (CHUNKSIZE * ((fed.length % CHUNKSIZE + p.length) / CHUNKSIZE))
      = canonOpenBuf s0 (fed ++ p)
    simp only [canonOpenBuf, List.append_assoc]
    congr 2
    rw [← hkk, Nat.mul_add, List.take_add,
      List.take_append_of_le_length hk1]
  · -- stream position
    show (canonOpenBuf s0 fed
        ++ ((fed ++ p).drop (CHUNKSIZE * (fed.length / CHUNKSIZE))).take
          (CHUNKSIZE * ((fed.length % CHUNKSIZE + p.length) / CHUNKSIZE))).length
      = (canonOpenBuf s0 (fed ++ p)).length
    congr 1
    simp only [canonOpenBuf, List.append_assoc]
    congr 2
    rw [← hkk, Nat.mul_add, List.take_add,
      List.take_append_of_le_length hk1]
  · -- engine state
    show ((fed ++ p).drop (CHUNKSIZE * (fed.length / CHUNKSIZE))).drop
        (CHUNKSIZE * ((fed.length % CHUNKSIZE + p.length) / CHUNKSIZE))
      = (fed ++ p).drop (CHUNKSIZE * ((fed ++ p).length / CHUNKSIZE))
    rw [List.drop_drop, ← Nat.mul_add, hkk]
  · -- rawSize
    simp [List.length_append]
  · -- compressedSize
    show CHUNKSIZE * (fed.length / CHUNKSIZE)
        + (((fed ++ p).drop (CHUNKSIZE * (fed.length / CHUNKSIZE))).take
            (CHUNKSIZE * ((fed.length % CHUNKSIZE + p.length) / CHUNKSIZE))).length
      = CHUNKSIZE * ((fed ++ p).length / CHUNKSIZE)
    rw [List.length_take, List.length_drop, List.length_append]
    have hkk2 : fed.length / CHUNKSIZE
          + (fed.length % CHUNKSIZE + p.length) / CHUNKSIZE
        = (fed.length + p.length) / CHUNKSIZE := by
      simpa using hkk
    have hmul : CHUNKSIZE * (fed.length / CHUNKSIZE)
          + CHUNKSIZE * ((fed.length % CHUNKSIZE + p.length) / CHUNKSIZE)
        = CHUNKSIZE * ((fed.length + p.length) / CHUNKSIZE) := by
      rw [← Nat.mul_add, hkk2]
    omega

theorem runPieces_canon (s0 : List Byte) (sz : Nat) (lvl : Int) :
    ∀ (ps : List (List Byte)) (fed : List Byte),
      (∀ p ∈ ps, p.length ≤ sz) →
      runPieces (canonOpen s0 sz lvl fed) ps
        = (canonOpen s0 sz lvl (fed ++ ps.flatten), none)
  | [], fed, _ => by simp [runPieces]
  | p :: ps, fed, h => by
    have hp : p.length ≤ sz := h p (by simp)
    have hps : ∀ q ∈ ps, q.length ≤ sz := fun q hq => h q (by simp [hq])
    simp only [runPieces, stage_canon s0 sz lvl fed p hp,
      compress_canon s0 sz lvl fed p]
    rw [runPieces_canon s0 sz lvl ps (fed ++ p) hps]
    simp [List.append_assoc]

theorem finish_canon (s0 : List Byte) (sz : Nat) (lvl : Int) (fed : List Byte) :
    (canonOpen s0 sz lvl fed).finish = (canonClosed s0 sz lvl fed, none) := by
  have hC : 0 < CHUNKSIZE := by norm_num [CHUNKSIZE]
  have hdm := Nat.div_add_mod fed.length CHUNKSIZE
  simp only [BpfCompressor.finish, canonOpen, ZStream.feed]
  simp only [if_true, List.append_nil]
  rw [writeChunks_eq _ ⟨canonOpenBuf s0 fed, (canonOpenBuf s0 fed).length⟩ rfl]
  simp only [chunksOf_flatten, sum_map_length_chunksOf]
  have hbuf : canonOpenBuf s0 fed
        ++ fed.drop (CHUNKSIZE * (fed.length / CHUNKSIZE))
      = s0 ++ headerBytes 0 0 ++ fed := by
    simp only [canonOpenBuf, List.append_assoc]
    rw [List.take_append_drop]
  have hcomp : CHUNKSIZE * (fed.length / CHUNKSIZE)
        + (fed.drop (CHUNKSIZE * (fed.length / CHUNKSIZE))).length
      = fed.length := by
    simp only [List.length_drop]
    omega
  rw [hbuf, hcomp]
  simp only [OLeStream.seek, OLeStream.write]
  simp only [canonClosed, Prod.mk.injEq, BpfCompressor.mk.injEq,
    OLeStream.mk.injEq, ZStream.mk.injEq, and_true, true_and]
  have htake : (s0 ++ headerBytes 0 0 ++ fed).take s0.length = s0 := by
    rw [List.append_assoc]
    exact List.take_left' rfl
  have hdrop : (s0 ++ headerBytes 0 0 ++ fed).drop
        (s0.length + (headerBytes fed.length fed.length).length) = fed := by
    apply List.drop_left'
    simp [headerBytes_length]
  have hbuf2 : (s0 ++ headerBytes 0 0 ++ fed).take s0.length
        ++ headerBytes fed.length fed.length
        ++ (s0 ++ headerBytes 0 0 ++ fed).drop
            (s0.length + (headerBytes fed.length fed.length).length)
      = canonClosedBuf s0 fed := by
    rw [htake, hdrop, canonClosedBuf]
  refine ⟨hbuf2, ?_⟩
  simp [canonClosedBuf, headerBytes_length]

theorem runBlock_canon (s : OLeStream) (sz : Nat) (lvl : Int)
    (ps : List (List Byte)) (hwf : s.wf) (hps : ∀ p ∈ ps, p.length ≤ sz) :
    runBlock s sz lvl ps = (canonClosed s.buf sz lvl ps.flatten, none) := by
  unfold runBlock
  rw [startBlock_canon s sz lvl hwf]
  simp only []
  rw [runPieces_canon s.buf sz lvl ps [] hps]
  simp only [List.nil_append]
  exact finish_canon s.buf sz lvl ps.flatten

theorem canonClosed_region (s0 : List Byte) (sz : Nat) (lvl : Int)
    (fed : List Byte) : regionOf (canonClosed s0 sz lvl fed) = fed := by
  unfold regionOf canonClosed canonClosedBuf
  have h1 : (s0 ++ headerBytes fed.length fed.length).length
      = s0.length + HEADERSIZE := by
    simp [headerBytes_length]
  rw [List.drop_left' h1, List.take_length]

theorem canonClosed_rawField (s0 : List Byte) (sz : Nat) (lvl : Int)
    (fed : List Byte) (hfit : fed.length < 256 ^ FIELDSIZE) :
    fromLE (((canonClosed s0 sz lvl fed).m_out.buf.drop
        (canonClosed s0 sz lvl fed).m_blockStart).take FIELDSIZE)
      = fed.length := by
  unfold canonClosed canonClosedBuf
  rw [List.append_assoc]
  rw [List.drop_left]
  rw [headerBytes, List.append_assoc, List.take_left' (toLE_length _ _)]
  exact fromLE_toLE _ _ hfit

/-! ### The claims -/

/-- C1: for every byte sequence `data` whose length does not exceed the
configured maximum block payload size, `startBlock(); stage(data);
compress(); finish()` writes a compressed region that decompresses to
exactly `data`, and the final header `rawSize` field equals the length of
`data`. -/
theorem C1_round_trip (s : OLeStream) (maxSize : Nat) (lvl : Int)
    (data : List Byte) (hwf : s.wf) (hlen : data.length ≤ maxSize)
    (hfit : data.length < 256 ^ FIELDSIZE) :
    RoundTripProp s maxSize lvl data := by
  have h1 := startBlock_canon s maxSize lvl hwf
  have h2 := stage_canon s.buf maxSize lvl [] data hlen
  have h3 := compress_canon s.buf maxSize lvl [] data
  rw [List.nil_append] at h3
  have h4 := finish_canon s.buf maxSize lvl data
  unfold RoundTripProp
  simp only [h1, h2, h3, h4]
  exact ⟨trivial, trivial, trivial, trivial,
    canonClosed_region s.buf maxSize lvl data,
    canonClosed_rawField s.buf maxSize lvl data hfit⟩

theorem C1_round_trip_witness :
    OLeStream.wf ⟨[], 0⟩ ∧ ([1, 2, 3] : List Byte).length ≤ 3 ∧
      ([1, 2, 3] : List Byte).length < 256 ^ FIELDSIZE ∧
      RoundTripProp ⟨[], 0⟩ 3 (-1) [1, 2, 3] :=
  ⟨rfl, by decide, by decide,
    C1_round_trip ⟨[], 0⟩ 3 (-1) [1, 2, 3] rfl (by decide) (by decide)⟩

/-- C2: two partitions of the same payload into `stage`/`compress` call
sequences, with identical compression parameters, produce byte-identical
decompressed output, identical final `rawSize` and identical final
`compressedSize` (in fact identical final compressor states). -/
theorem C2_idempotent_chunking (s : OLeStream) (maxSize : Nat) (lvl : Int)
    (ps qs : List (List Byte)) (hwf : s.wf)
    (hps : ∀ p ∈ ps, p.length ≤ maxSize)
    (hqs : ∀ q ∈ qs, q.length ≤ maxSize)
    (hjoin : ps.flatten = qs.flatten) :
    ChunkingProp s maxSize lvl ps qs := by
  have hp := runBlock_canon s maxSize lvl ps hwf hps
  have hq := runBlock_canon s maxSize lvl qs hwf hqs
  unfold ChunkingProp
  rw [hp, hq, hjoin]
  exact ⟨rfl, rfl, rfl, rfl, rfl, rfl⟩

theorem C2_idempotent_chunking_witness :
    OLeStream.wf ⟨[], 0⟩ ∧
    (∀ p ∈ ([[1, 2], [3]] : List (List Byte)), p.length ≤ 3) ∧
    (∀ q ∈ ([[1], [2, 3]] : List (List Byte)), q.length ≤ 3) ∧
    ([[1, 2], [3]] : List (List Byte)).flatten
      = ([[1], [2, 3]] : List (List Byte)).flatten ∧
    ChunkingProp ⟨[], 0⟩ 3 (-1) [[1, 2], [3]] [[1], [2, 3]] :=
  ⟨rfl, by decide, by decide, by decide,
    C2_idempotent_chunking ⟨[], 0⟩ 3 (-1) [[1, 2], [3]] [[1], [2, 3]]
      rfl (by decide) (by decide) (by decide)⟩

/-- C3: on an open block, `finish()` writes the final header (rawSize then
compressedSize, fixed-width little-endian) at the recorded start position
via a seek-write, restores the append cursor to its position immediately
before the seek-write, and the placeholder header written by `startBlock()`
has the same byte width as the final header. -/
theorem C3_finish_header_frame (c : BpfCompressor) (hOpen : c.m_state = .Open)
    (hwf : c.m_out.wf)
    (hin : c.m_blockStart + HEADERSIZE ≤ c.m_out.buf.length) :
    FinishFrameProp c := by
  obtain ⟨out, sz, lvl, staged, strm, bstart, raw, comp, st⟩ := c
  cases st with
  | Idle => simp at hOpen
  | Closed => simp at hOpen
  | Open =>
    obtain ⟨pend⟩ := strm
    unfold FinishFrameProp BpfCompressor.finish
    simp only [ZStream.feed, if_true, List.append_nil]
    rw [writeChunks_eq _ out hwf]
    simp only [chunksOf_flatten, sum_map_length_chunksOf]
    unfold OLeStream.wf at hwf
    simp only at hwf hin
    have htl : ((out.buf ++ pend).take bstart).length = bstart := by
      rw [List.length_take]
      apply Nat.min_eq_left
      rw [List.length_append]
      omega
    refine ⟨trivial, ?_, ?_, ?_⟩
    · simp only [OLeStream.seek, OLeStream.write]
      rw [List.append_assoc, List.drop_left' htl,
        List.take_left' (headerBytes_length _ _)]
    · simp only [OLeStream.seek, OLeStream.write]
      simp [hwf]
    · simp [headerBytes_length]

theorem C3_finish_header_frame_witness :
    ((BpfCompressor.mkNew ⟨[], 0⟩ 4 (-1)).startBlock).1.m_state
      = FramerState.Open ∧
    OLeStream.wf ((BpfCompressor.mkNew ⟨[], 0⟩ 4 (-1)).startBlock).1.m_out ∧
    ((BpfCompressor.mkNew ⟨[], 0⟩ 4 (-1)).startBlock).1.m_blockStart
        + HEADERSIZE
      ≤ ((BpfCompressor.mkNew ⟨[], 0⟩ 4 (-1)).startBlock).1.m_out.buf.length ∧
    FinishFrameProp ((BpfCompressor.mkNew ⟨[], 0⟩ 4 (-1)).startBlock).1 :=
  ⟨by decide, rfl, by decide,
    C3_finish_header_frame _ (by decide) rfl (by decide)⟩

/-- C4: every successful `startBlock()` records the current write position
as the block start, writes the fixed-width placeholder header at that
position, resets the compression engine and zeroes both running totals. -/
theorem C4_startBlock_resets (c : BpfCompressor) (h : c.m_state ≠ .Open) :
    (c.startBlock).2 = none ∧
    (c.startBlock).1.m_blockStart = c.m_out.pos ∧
    (c.startBlock).1.m_out = c.m_out.write (headerBytes 0 0) ∧
    (headerBytes 0 0).length = HEADERSIZE ∧
    (c.startBlock).1.m_strm = ⟨[]⟩ ∧
    (c.startBlock).1.m_rawSize = 0 ∧
    (c.startBlock).1.m_compressedSize = 0 := by
  unfold BpfCompressor.startBlock
  rw [if_neg h]
  exact ⟨rfl, rfl, rfl, headerBytes_length 0 0, rfl, rfl, rfl⟩

theorem C4_startBlock_resets_witness :
    ((BpfCompressor.mkNew ⟨[], 0⟩ 2).m_state ≠ FramerState.Open) ∧
    (((BpfCompressor.mkNew ⟨[], 0⟩ 2).startBlock).2 = none ∧
      (((BpfCompressor.mkNew ⟨[], 0⟩ 2).startBlock).1.m_blockStart
        = (BpfCompressor.mkNew ⟨[], 0⟩ 2).m_out.pos) ∧
      (((BpfCompressor.mkNew ⟨[], 0⟩ 2).startBlock).1.m_out
        = (BpfCompressor.mkNew ⟨[], 0⟩ 2).m_out.write (headerBytes 0 0)) ∧
      (headerBytes 0 0).length = HEADERSIZE ∧
      ((BpfCompressor.mkNew ⟨[], 0⟩ 2).startBlock).1.m_strm = ⟨[]⟩ ∧
      ((BpfCompressor.mkNew ⟨[], 0⟩ 2).startBlock).1.m_rawSize = 0 ∧
      ((BpfCompressor.mkNew ⟨[], 0⟩ 2).startBlock).1.m_compressedSize = 0) :=
  ⟨by decide, C4_startBlock_resets (BpfCompressor.mkNew ⟨[], 0⟩ 2) (by decide)⟩

/-- C5: `finish()` with no prior `startBlock()` fails with `NotOpen`;
`compress()` with no open block, and a second `finish()` on the same
block, fail with `InvalidTransition`; none of these are silently
accepted. -/
theorem C5_state_machine_errors (c : BpfCompressor) :
    (c.m_state = .Idle → c.finish = (c, some .NotOpen)) ∧
    (c.m_state ≠ .Open → c.compress = (c, some .InvalidTransition)) ∧
    (c.m_state = .Closed → c.finish = (c, some .InvalidTransition)) := by
  refine ⟨?_, ?_, ?_⟩
  · intro h
    simp only [BpfCompressor.finish, h]
  · intro h
    unfold BpfCompressor.compress
    rw [if_neg h]
  · intro h
    simp only [BpfCompressor.finish, h]

theorem C5_state_machine_errors_witness :
    ((BpfCompressor.mkNew ⟨[], 0⟩ 1).finish
      = (BpfCompressor.mkNew ⟨[], 0⟩ 1, some BpfError.NotOpen)) ∧
    ((BpfCompressor.mkNew ⟨[], 0⟩ 1).compress
      = (BpfCompressor.mkNew ⟨[], 0⟩ 1, some BpfError.InvalidTransition)) ∧
    ((((BpfCompressor.mkNew ⟨[], 0⟩ 1).startBlock).1.finish).1.finish
      = ((((BpfCompressor.mkNew ⟨[], 0⟩ 1).startBlock).1.finish).1,
          some BpfError.InvalidTransition)) :=
  ⟨(C5_state_machine_errors _).1 rfl,
    (C5_state_machine_errors _).2.1 (by decide),
    (C5_state_machine_errors _).2.2 (by decide)⟩

/-- C6: staging bytes so that the total staged equals exactly the maximum
payload size succeeds; staging beyond the maximum fails with
`CapacityExceeded` and leaves the already-staged content unchanged. -/
theorem C6_capacity_boundary (c : BpfCompressor) (bs bs2 : List Byte)
    (h1 : c.m_staged.length + bs.length = c.m_inbufSize)
    (h2 : c.m_inbufSize < c.m_staged.length + bs2.length) :
    (c.stage bs).2 = none ∧
    (c.stage bs).1.m_staged = c.m_staged ++ bs ∧
    c.stage bs2 = (c, some .CapacityExceeded) ∧
    (c.stage bs2).1.m_staged = c.m_staged := by
  unfold BpfCompressor.stage
  rw [if_neg (by omega), if_pos h2]
  exact ⟨rfl, rfl, rfl, rfl⟩

theorem C6_capacity_boundary_witness :
    ((BpfCompressor.mkNew ⟨[], 0⟩ 2).m_staged.length
        + ([7, 8] : List Byte).length
      = (BpfCompressor.mkNew ⟨[], 0⟩ 2).m_inbufSize) ∧
    ((BpfCompressor.mkNew ⟨[], 0⟩ 2).m_inbufSize
      < (BpfCompressor.mkNew ⟨[], 0⟩ 2).m_staged.length
        + ([1, 2, 3] : List Byte).length) ∧
    (((BpfCompressor.mkNew ⟨[], 0⟩ 2).stage [7, 8]).2 = none ∧
      ((BpfCompressor.mkNew ⟨[], 0⟩ 2).stage [7, 8]).1.m_staged
        = (BpfCompressor.mkNew ⟨[], 0⟩ 2).m_staged ++ [7, 8] ∧
      (BpfCompressor.mkNew ⟨[], 0⟩ 2).stage [1, 2, 3]
        = (BpfCompressor.mkNew ⟨[], 0⟩ 2, some BpfError.CapacityExceeded) ∧
      ((BpfCompressor.mkNew ⟨[], 0⟩ 2).stage [1, 2, 3]).1.m_staged
        = (BpfCompressor.mkNew ⟨[], 0⟩ 2).m_staged) :=
  ⟨by decide, by decide,
    C6_capacity_boundary (BpfCompressor.mkNew ⟨[], 0⟩ 2) [7, 8] [1, 2, 3]
      (by decide) (by decide)⟩

/-- C7: `startBlock(); finish()` with no intervening `compress()` yields a
final header with `rawSize = 0` and a (zero-length) compressed payload
that decompresses to the empty byte sequence. -/
theorem C7_empty_block (s : OLeStream) (maxSize : Nat) (lvl : Int)
    (hwf : s.wf) : EmptyBlockProp s maxSize lvl := by
  have h1 := startBlock_canon s maxSize lvl hwf
  have h4 := finish_canon s.buf maxSize lvl []
  unfold EmptyBlockProp
  simp only [h1, h4]
  refine ⟨trivial, trivial, ?_, canonClosed_region s.buf maxSize lvl [],
    canonClosed_rawField s.buf maxSize lvl [] (by decide)⟩
  rfl

theorem C7_empty_block_witness :
    OLeStream.wf ⟨[9], 1⟩ ∧ EmptyBlockProp ⟨[9], 1⟩ 5 (-1) :=
  ⟨rfl, C7_empty_block ⟨[9], 1⟩ 5 (-1) rfl⟩

/-- C8: the chunk scratch buffer has the fixed capacity `1000000` bytes,
the same for every constructed compressor and every `compress()` call, and
no compressed chunk handed to the output stream exceeds that size. -/
theorem C8_chunk_buffer :
    CHUNKSIZE = 1000000 ∧
    ∀ (z : ZStream) (input : List Byte) (finalInput : Bool),
      ∀ ch ∈ (z.feed input finalInput).1, ch.length ≤ CHUNKSIZE := by
  refine ⟨rfl, ?_⟩
  intro z input finalInput ch hch
  unfold ZStream.feed at hch
  cases finalInput with
  | true =>
    simp only [if_true] at hch
    exact chunksOf_length_le _ ch hch
  | false =>
    simp only [Bool.false_eq_true, if_false] at hch
    exact chunksOf_length_le _ ch hch

theorem C8_chunk_buffer_witness :
    (([1, 2] : List Byte) ∈ (ZStream.feed ⟨[]⟩ [1, 2] true).1) ∧
    ([1, 2] : List Byte).length ≤ CHUNKSIZE :=
  ⟨by decide, C8_chunk_buffer.2 ⟨[]⟩ [1, 2] true [1, 2] (by decide)⟩

/-- C9: a freshly constructed `BpfCompressor(out, maxSize)` has both
running totals zero, a staging buffer of size exactly `maxSize`, and, with
the level argument omitted, the compression level `Z_DEFAULT_COMPRESSION`
of zlib. -/
theorem C9_constructor_defaults (out : OLeStream) (maxSize : Nat) :
    (BpfCompressor.mkNew out maxSize).m_rawSize = 0 ∧
    (BpfCompressor.mkNew out maxSize).m_compressedSize = 0 ∧
    (BpfCompressor.mkNew out maxSize).m_inbufSize = maxSize ∧
    (BpfCompressor.mkNew out maxSize).m_level = Z_DEFAULT_COMPRESSION :=
  ⟨rfl, rfl, rfl, rfl⟩

end Pdal

namespace Pdal

namespace GpsTimeConvert

/-! ### Frame lemmas for `GpsTimeConvert.run` -/

theorem foldSet_size (ts : List ℚ) (l : List Nat) (w : PointView) :
    (l.foldl (fun w2 i => w2.setField .GpsTime i (ts.getD i 0)) w).size
      = w.size := by
  induction l generalizing w with
  | nil => rfl
  | cons a l ih => exact ih _

theorem foldSet_other (ts : List ℚ) (l : List Nat) (w : PointView)
    (d : Dim) (i : Nat) (hd : d ≠ .GpsTime) :
    (l.foldl (fun w2 i2 => w2.setField .GpsTime i2 (ts.getD i2 0)) w).getField
        d i
      = w.getField d i := by
  induction l generalizing w with
  | nil => rfl
  | cons a l ih =>
    rw [List.foldl_cons, ih]
    show (if d = Dim.GpsTime ∧ i = a then ts.getD a 0 else w.getField d i)
      = w.getField d i
    rw [if_neg (fun h => hd h.1)]

theorem foldSet_mem (ts : List ℚ) (l : List Nat) (w : PointView) (j : Nat) :
    (l.foldl (fun w2 i2 => w2.setField .GpsTime i2 (ts.getD i2 0)) w).getField
        .GpsTime j
      = if j ∈ l then ts.getD j 0 else w.getField .GpsTime j := by
  induction l generalizing w with
  | nil => simp
  | cons a l ih =>
    rw [List.foldl_cons, ih]
    by_cases hj : j ∈ l
    · simp [hj]
    · by_cases hja : j = a
      · subst hja
        simp [hj, PointView.setField]
      · simp only [List.mem_cons, hj, hja, or_self, if_false]
        show (if Dim.GpsTime = Dim.GpsTime ∧ j = a then ts.getD a 0
            else w.getField .GpsTime j)
          = w.getField .GpsTime j
        rw [if_neg (fun h => hja h.2)]

/-- C10: `run` returns a set holding exactly the (updated) input view, the
point count is unchanged, no per-point dimension other than `GpsTime` is
modified, and each output `GpsTime` value is a function of the input
`GpsTime` column and the validated options alone. -/
theorem C10_run_frame (o : Options) (v : PointView) (d : Dim) (i j : Nat)
    (hd : d ≠ Dim.GpsTime) (hj : j < v.size) :
    (run o v).length = 1 ∧
    ((run o v).getD 0 v).size = v.size ∧
    ((run o v).getD 0 v).getField d i = v.getField d i ∧
    ((run o v).getD 0 v).getField .GpsTime j
      = (convertTimes o (readTimes v)).getD j 0 := by
  refine ⟨rfl, ?_, ?_, ?_⟩
  · exact foldSet_size _ _ _
  · exact foldSet_other _ _ _ d i hd
  · show (writeTimes v (convertTimes o (readTimes v))).getField .GpsTime j
      = (convertTimes o (readTimes v)).getD j 0
    unfold writeTimes
    rw [foldSet_mem]
    rw [if_pos (List.mem_range.mpr hj)]

theorem C10_run_frame_witness :
    (Dim.Other 0 ≠ Dim.GpsTime) ∧
    (0 < (PointView.mk 1 (fun _ _ => 0)).size) ∧
    ((run ⟨.gt2gst, 0, false, false⟩ (PointView.mk 1 (fun _ _ => 0))).length
        = 1 ∧
      ((run ⟨.gt2gst, 0, false, false⟩
          (PointView.mk 1 (fun _ _ => 0))).getD 0
            (PointView.mk 1 (fun _ _ => 0))).size
        = (PointView.mk 1 (fun _ _ => 0)).size ∧
      ((run ⟨.gt2gst, 0, false, false⟩
          (PointView.mk 1 (fun _ _ => 0))).getD 0
            (PointView.mk 1 (fun _ _ => 0))).getField (Dim.Other 0) 0
        = (PointView.mk 1 (fun _ _ => 0)).getField (Dim.Other 0) 0 ∧
      ((run ⟨.gt2gst, 0, false, false⟩
          (PointView.mk 1 (fun _ _ => 0))).getD 0
            (PointView.mk 1 (fun _ _ => 0))).getField .GpsTime 0
        = (convertTimes ⟨.gt2gst, 0, false, false⟩
            (readTimes (PointView.mk 1 (fun _ _ => 0)))).getD 0 0) :=
  ⟨by decide, by decide,
    C10_run_frame ⟨.gt2gst, 0, false, false⟩ (PointView.mk 1 (fun _ _ => 0))
      (Dim.Other 0) 0 0 (by decide) (by decide)⟩

end GpsTimeConvert

end Pdal
